import Mathlib

/-!
Verification of the etph client library (src/etph.py) against its
natural-language specification.  The Python module is shallowly embedded:
JSON values become an inductive type, files become optional association
lists passed as parameters, the blocking I/O of `trigger` becomes an
explicit trace of effects, and every Python exception becomes a value of
an error type.  All definitions are executable.
-/

namespace Etph

/-- JSON values, as produced by json.load. -/
inductive JVal where
  | null
  | bool (b : Bool)
  | num (n : Int)
  | str (s : String)
  | obj (fields : List (String × JVal))

/-- A JSON object: an ordered association list, as a Python dict. -/
abbrev Obj : Type := List (String × JVal)

/-- Lookup of a key in an object (first occurrence). -/
def jlookup (o : Obj) (k : String) : Option JVal :=
  match o with
  | [] => none
  | (k2, v) :: rest => if k2 = k then some v else jlookup rest k

/-- Python dict.update: keys of the base keep their position but take the
new value when the update dict also has them; keys only in the update dict
are appended in order. -/
def dict_update (base d : Obj) : Obj :=
  base.map (fun p => match jlookup d p.1 with
                     | some v => (p.1, v)
                     | none => p)
    ++ d.filter (fun p => (jlookup base p.1).isNone)

/-- Python truthiness of a JSON value (bool(x)). -/
def truthy : JVal → Bool
  | .null => false
  | .bool b => b
  | .num n => n != 0
  | .str s => s != ""
  | .obj o => !o.isEmpty

/-- Effective config: `trigger` (lines 84-91) iterates the search list of
config files in reversed order, calling cfg.update on each file that
exists.  `files` is in search order as `_config_file(..., search=True)`
returns it: most specific (user scope) first, system scope later; `none`
stands for a file that does not exist (ENOENT, silently skipped). -/
def merged_config (files : List (Option Obj)) : Obj :=
  files.reverse.foldl
    (fun cfg of => match of with
                   | none => cfg
                   | some d => dict_update cfg d)
    []

/-- Specification-level description of the merge: the value of a key is
taken from the first file, in most-specific-first search order, that
contains the key. -/
def firstFileHit (files : List (Option Obj)) (k : String) : Option JVal :=
  match files with
  | [] => none
  | none :: rest => firstFileHit rest k
  | some o :: rest => (jlookup o k).orElse (fun _ => firstFileHit rest k)

/-! ## Timestamps

`parse_datetime` (lines 11-22) matches the input against
`^(\d{4}-\d{2}-\d{2}T\d{2}:\d{2}:\d{2})(\.\d{1,6})?Z?([\+\-]\d{2}:?\d{2})?$`
and, when the regex matches, feeds the date-time part (with the fractional
part, or ".0" when absent) to `datetime.strptime` with format
`%Y-%m-%dT%H:%M:%S.%f`, which additionally checks the calendar ranges of
the fields.  The `Z` and the offset groups are discarded.  Failure of
either step is a ValueError.  The regex components here are deterministic
(fraction, `Z` and offset start with distinct characters), so the
backtracking regex is equivalent to this one-pass recognizer. -/

/-- A naive Python datetime value. -/
structure DateTime where
  year : Nat
  month : Nat
  day : Nat
  hour : Nat
  minute : Nat
  second : Nat
  microsecond : Nat
  deriving DecidableEq, Repr

/-- The digits of the pattern.  Python \d also matches Unicode decimal
digits; this model takes the ASCII digits, which is exact on ASCII input
(the domain to which the timestamp characterization below is scoped). -/
def isDig (c : Char) : Bool := '0' ≤ c && c ≤ '9'

def digVal (c : Char) : Nat := c.toNat - '0'.toNat

/-- Numeric value of a digit string. -/
def digitsVal (ds : List Char) : Nat := ds.foldl (fun a c => 10 * a + digVal c) 0

/-- Exactly n digits from the front of the input; value is read later. -/
def takeDigits : Nat → List Char → Option (List Char × List Char)
  | 0, s => some ([], s)
  | _ + 1, [] => none
  | n + 1, c :: s =>
    if isDig c then (takeDigits n s).map (fun p => (c :: p.1, p.2)) else none

def expectChar (c : Char) : List Char → Option (List Char)
  | [] => none
  | x :: s => if x = c then some s else none

/-- The fixed `\d{4}-\d{2}-\d{2}T\d{2}:\d{2}:\d{2}` part of the pattern. -/
def parseBase (s : List Char) : Option ((Nat × Nat × Nat × Nat × Nat × Nat) × List Char) :=
  match takeDigits 4 s with
  | none => none
  | some (ys, s1) =>
  match expectChar '-' s1 with
  | none => none
  | some s2 =>
  match takeDigits 2 s2 with
  | none => none
  | some (mos, s3) =>
  match expectChar '-' s3 with
  | none => none
  | some s4 =>
  match takeDigits 2 s4 with
  | none => none
  | some (ds, s5) =>
  match expectChar 'T' s5 with
  | none => none
  | some s6 =>
  match takeDigits 2 s6 with
  | none => none
  | some (hs, s7) =>
  match expectChar ':' s7 with
  | none => none
  | some s8 =>
  match takeDigits 2 s8 with
  | none => none
  | some (mis, s9) =>
  match expectChar ':' s9 with
  | none => none
  | some s10 =>
  match takeDigits 2 s10 with
  | none => none
  | some (ses, s11) =>
    some ((digitsVal ys, digitsVal mos, digitsVal ds,
           digitsVal hs, digitsVal mis, digitsVal ses), s11)

/-- Microseconds denoted by a 1-6 digit fractional part (strptime %f pads
on the right). -/
def msOf (ds : List Char) : Nat := digitsVal ds * 10 ^ (6 - ds.length)

/-- The `(\.\d{1,6})?` group.  With more than six digits after the dot no
backtracking split can succeed, since the character after the group would
be a digit, matching neither `Z?` nor the offset nor the end. -/
def parseFrac : List Char → Option (Nat × List Char)
  | [] => some (0, [])
  | c :: t =>
    if c = '.' then
      let ds := t.takeWhile isDig
      if 1 ≤ ds.length ∧ ds.length ≤ 6 then some (msOf ds, t.dropWhile isDig)
      else none
    else some (0, c :: t)

/-- The `Z?` group. -/
def parseZ : List Char → Bool × List Char
  | [] => (false, [])
  | c :: t => if c = 'Z' then (true, t) else (false, c :: t)

/-- The `([\+\-]\d{2}:?\d{2})?` group; the value is discarded by the
source, so only the rest of the input is returned. -/
def parseOffset : List Char → Option (List Char)
  | [] => some []
  | c :: s =>
    if c = '+' ∨ c = '-' then
      match takeDigits 2 s with
      | none => none
      | some (_, s1) =>
        match takeDigits 2 (if s1.head? = some ':' then s1.tail else s1) with
        | none => none
        | some (_, s3) => some s3
    else some (c :: s)

def isLeap (y : Nat) : Bool := y % 4 = 0 && (y % 100 != 0 || y % 400 = 0)

def daysInMonth (y m : Nat) : Nat :=
  if m = 2 then (if isLeap y then 29 else 28)
  else if m = 4 ∨ m = 6 ∨ m = 9 ∨ m = 11 then 30
  else 31

/-- Field ranges accepted by strptime + the datetime constructor. -/
def validDate (y m d : Nat) : Bool :=
  1 ≤ y && y ≤ 9999 && 1 ≤ m && m ≤ 12 && 1 ≤ d && d ≤ daysInMonth y m

def validTime (h mi se : Nat) : Bool := h ≤ 23 && mi ≤ 59 && se ≤ 59

/-- Shallow embedding of parse_datetime (lines 14-22); `none` is the
ValueError.  The final test embeds the regex `$` anchor: outside
MULTILINE mode it matches at the end of the input or just before a
trailing newline, so the source also accepts the shape followed by one
final newline character. -/
def parse_datetime (s : List Char) : Option DateTime :=
  match parseBase s with
  | none => none
  | some ((y, mo, dd, h, mi, se), r1) =>
  match parseFrac r1 with
  | none => none
  | some (us, r2) =>
  let zr := parseZ r2
  match parseOffset zr.2 with
  | none => none
  | some r4 =>
    if (r4 = [] ∨ r4 = ['\n']) ∧ validDate y mo dd ∧ validTime h mi se then
      some ⟨y, mo, dd, h, mi, se, us⟩
    else none

/-! ## Calendar arithmetic

Naive datetimes compare and add timedeltas exactly like their value on a
microsecond timeline over the proleptic Gregorian calendar; the gate
comparison `last_sent_at + send_interval > now` is embedded on that
timeline. -/

def daysBeforeMonth (y m : Nat) : Nat :=
  [0, 31, 59, 90, 120, 151, 181, 212, 243, 273, 304, 334].getD (m - 1) 0
    + (if 2 < m ∧ isLeap y then 1 else 0)

/-- Days from 0001-01-01 to the given date (Python date.toordinal minus 1). -/
def daysFromCivil (y m d : Nat) : Nat :=
  365 * (y - 1) + ((y - 1) / 4 - (y - 1) / 100) + (y - 1) / 400
    + daysBeforeMonth y m + (d - 1)

/-- Microsecond timeline value of a datetime. -/
def timelineMicros (dt : DateTime) : Nat :=
  daysFromCivil dt.year dt.month dt.day * 86400000000
    + (dt.hour * 3600 + dt.minute * 60 + dt.second) * 1000000
    + dt.microsecond

/-- datetime(2000, 1, 1), the first-submission sentinel (line 115). -/
def sentinelMicros : Nat := timelineMicros ⟨2000, 1, 1, 0, 0, 0, 0⟩

def digitChar (n : Nat) : Char := Char.ofNat ('0'.toNat + n)

/-- Decimal rendering, zero-padded to a fixed width. -/
def padNum : Nat → Nat → List Char
  | 0, _ => []
  | w + 1, n => padNum w (n / 10) ++ [digitChar (n % 10)]

/-- datetime.isoformat(): the fractional part is printed (as six digits)
only when the microsecond field is nonzero. -/
def isoformat (dt : DateTime) : String :=
  String.mk
    (padNum 4 dt.year ++ '-' :: padNum 2 dt.month ++ '-' :: padNum 2 dt.day
      ++ 'T' :: padNum 2 dt.hour ++ ':' :: padNum 2 dt.minute
      ++ ':' :: padNum 2 dt.second
      ++ (if dt.microsecond = 0 then [] else '.' :: padNum 6 dt.microsecond))

/-! ## The operations

Python exceptions are values; every operation returns its outcome together
with the trace of file/network effects it performed, in order. -/

inductive PyErr where
  | attributeError
  | valueError
  | typeError
  | keyError (k : String)
  | unboundLocalError
  | ioError
  | assertionError
  deriving DecidableEq, Repr

/-- Observable file/network effects of the operations. -/
inductive Eff where
  | readCfg
  | readState
  | writeState (rec : Obj)
  | sendCall (payload : Obj) (dest : JVal)
  | writeCfg (o : Obj)

/-- Outcome of a completed (non-raising) trigger call. -/
inductive Decision where
  | notEnabled
  | tooSoon
  deriving DecidableEq, Repr

/-- The documented application-name pattern `^[a-zA-Z][a-zA-Z0-9_.]*$`
(line 52). -/
def appname_pat (s : String) : Bool :=
  match s.data with
  | [] => false
  | c :: rest =>
    (c.isAlpha) && rest.all (fun x => x.isAlpha || isDig x || x = '_' || x = '.')

/-- Compiled re pattern objects expose match, fullmatch, search, ...;
none of their attributes is named matches, so the lookup
`_appname_pat.matches` in `_check_appname` (line 55) fails. -/
def pattern_has_matches_method : Bool := false

/-- `_check_appname` (lines 53-57): attribute lookup of `.matches` raises
AttributeError before the argument is even considered; had the attribute
existed with `re.match` semantics, a non-matching name would raise the
documented ValueError. -/
def check_appname (appname : String) : Except PyErr Unit :=
  if pattern_has_matches_method then
    if appname_pat appname then .ok () else .error .valueError
  else .error .attributeError

/-- Send interval from the frequency value (lines 97-103).  An
unrecognized value leaves the Python local unassigned, hence `none`; the
use at line 123 then raises UnboundLocalError.  Values in microseconds
(timedelta precision): daily = 1 day, weekly = `timedelta(weeks=7)` = 49
days, monthly = 28 days. -/
def send_interval_of (freq : JVal) : Option Nat :=
  match freq with
  | .str s =>
    if s = "daily" then some 86400000000
    else if s = "weekly" then some (49 * 86400000000)
    else if s = "monthly" then some (28 * 86400000000)
    else none
  | _ => none

/-- Python dict assignment d[k] = v: replace in place if present, else
append. -/
def insertKey (o : Obj) (k : String) (v : JVal) : Obj :=
  if (jlookup o k).isSome then
    o.map (fun p => if p.1 = k then (k, v) else p)
  else o ++ [(k, v)]

/-- The record written to the state file (lines 127-131): note user_id is
inside the nested data object, not at top level. -/
def newRecord (now : DateTime) (dest : JVal) (dataF : Obj) : Obj :=
  [("timestamp", .str (isoformat now)), ("destination", dest),
   ("data", .obj dataF)]

/-- Lines 108-120: read the state file.  On ENOENT (state = none) the
sentinel datetime(2000,1,1) is used and a fresh uuid is stored into the
caller dict; otherwise the timestamp of the record is parsed and its top-level
user_id is copied into the caller dict.  A non-string timestamp would
raise TypeError inside re.match; a missing key raises KeyError. -/
def resolve_last (state : Option Obj) (fresh : String) (payload : Obj) :
    Except PyErr (Nat × Obj) :=
  match state with
  | none => .ok (sentinelMicros, insertKey payload "user_id" (.str fresh))
  | some r =>
    match jlookup r "timestamp" with
    | none => .error (.keyError "timestamp")
    | some (.str ts) =>
      match parse_datetime ts.data with
      | none => .error .valueError
      | some dt =>
        match jlookup r "user_id" with
        | none => .error (.keyError "user_id")
        | some uid => .ok (timelineMicros dt, insertKey payload "user_id" uid)
    | some _ => .error .typeError

/-- Where the body of trigger (lines 93-125) ends up. -/
inductive GateStep where
  | notEnabled
  | noDest
  | stateErr (e : PyErr)
  | noInterval
  | tooSoon
  | submit (dest : JVal) (dataF : Obj)

/-- The decision logic of trigger, lines 93-125, in source order: the
enabled check, the interval from the frequency key, `cfg['destination']`
(KeyError when absent), the state file, then the comparison
`last_sent_at + send_interval > now`. -/
def gate (files : List (Option Obj)) (state : Option Obj) (fresh : String)
    (now : DateTime) (payload : Obj) : GateStep :=
  let cfg := merged_config files
  if truthy ((jlookup cfg "enabled").getD (.bool false)) then
    let si := send_interval_of ((jlookup cfg "frequency").getD (.str "weekly"))
    match jlookup cfg "destination" with
    | none => .noDest
    | some dest =>
      match resolve_last state fresh payload with
      | .error e => .stateErr e
      | .ok (lastMs, dataF) =>
        match si with
        | none => .noInterval
        | some iv =>
          if timelineMicros now < lastMs + iv then .tooSoon
          else .submit dest dataF
  else .notEnabled

/-- The body of trigger after the name checks (lines 84-133), with its
effect trace.  The config files are read first; skip paths touch nothing
else; on submit the new record is written and then `_send` is invoked
(which itself raises TypeError: it is called with two arguments but
declared with three, line 135); when the state-file write fails the
IOError propagates and `_send` is never reached. -/
def trigger_core (files : List (Option Obj)) (state : Option Obj)
    (fresh : String) (now : DateTime) (payload : Obj) (writeOk : Bool) :
    Except PyErr Decision × List Eff :=
  let A := files.map (fun _ => Eff.readCfg)
  match gate files state fresh now payload with
  | .notEnabled => (.ok .notEnabled, A)
  | .noDest => (.error (.keyError "destination"), A)
  | .stateErr e => (.error e, A ++ [Eff.readState])
  | .noInterval => (.error .unboundLocalError, A ++ [Eff.readState])
  | .tooSoon => (.ok .tooSoon, A ++ [Eff.readState])
  | .submit dest dataF =>
    if writeOk then
      (.error .typeError,
        A ++ [Eff.readState, Eff.writeState (newRecord now dest dataF),
              Eff.sendCall dataF dest])
    else (.error .ioError, A ++ [Eff.readState])

/-- trigger (lines 70-133): `_config_file(appname, search=True)` checks
the application name before any file is opened. -/
def trigger (appname : String) (files : List (Option Obj))
    (state : Option Obj) (fresh : String) (now : DateTime) (payload : Obj)
    (writeOk : Bool) : Except PyErr Decision × List Eff :=
  match check_appname appname with
  | .error e => (.error e, [])
  | .ok _ => trigger_core files state fresh now payload writeOk

/-- configure (lines 150-170): the frequency assertion (line 163) runs
first, then the name check inside `_config_file`, then the single config
write. -/
def configure (appname : String) (user_permission : Bool)
    (destination : Option String) (frequency : String) :
    Except PyErr Unit × List Eff :=
  if frequency = "daily" ∨ frequency = "weekly" ∨ frequency = "monthly" then
    match check_appname appname with
    | .error e => (.error e, [])
    | .ok _ =>
      (.ok (),
        [Eff.writeCfg ([("enabled", .bool user_permission),
                        ("frequency", .str frequency)]
          ++ (match destination with
              | some u => [("destination", .str u)]
              | none => []))])
  else (.error .assertionError, [])

/-- is_configured (lines 172-184).  The source passes the compiled
pattern object itself, not appname, to `_config_file`; `check_appname`
fails by attribute lookup before its argument matters, so the argument is
immaterial here.  `cfgContent` is the content of the own-scope
config file of the application (`none` = no such file). -/
def is_configured (appname : String) (cfgContent : Option Obj) :
    Except PyErr Bool × List Eff :=
  match check_appname appname with
  | .error e => (.error e, [])
  | .ok _ =>
    match cfgContent with
    | none => (.ok false, [Eff.readCfg])
    | some o => (.ok ((jlookup o "enabled").isSome), [Eff.readCfg])

/-! ## Specification-side description of the accepted timestamp strings

Used to characterize exactly which strings `parse_datetime` accepts. -/

/-- A block of exactly n decimal digits. -/
def digitBlock (ds : List Char) (n : Nat) : Prop :=
  ds.length = n ∧ ∀ c ∈ ds, isDig c = true

/-- Rendering of an optional fractional-seconds component. -/
def fracPart : Option (List Char) → List Char
  | none => []
  | some ds => '.' :: ds

/-- The fractional component, when present, is 1 to 6 digits. -/
def fracOK : Option (List Char) → Prop
  | none => True
  | some ds => 1 ≤ ds.length ∧ ds.length ≤ 6 ∧ ∀ c ∈ ds, isDig c = true

/-- Microseconds denoted by an optional fractional component; zero when it
is absent. -/
def msDefault : Option (List Char) → Nat
  | none => 0
  | some ds => msOf ds

/-- Rendering of an optional trailing Z. -/
def zPart : Bool → List Char
  | true => ['Z']
  | false => []

/-- A numeric UTC-offset suffix: sign, two digits, optional colon, two
digits -- or nothing. -/
def offsetOK (off : List Char) : Prop :=
  off = [] ∨
  ∃ c hh sep mm, (c = '+' ∨ c = '-') ∧ digitBlock hh 2 ∧
    (sep = [] ∨ sep = [':']) ∧ digitBlock mm 2 ∧ off = c :: (hh ++ sep ++ mm)

/-- s is an ISO-8601 timestamp of the accepted shape denoting dt:
YYYY-MM-DDTHH:MM:SS with in-range calendar fields, an optional fraction of
1-6 digits, an optional Z and an optional numeric offset, each
independently optional, optionally followed by one trailing newline
(which the `$` anchor admits). -/
def iso_decomp (s : List Char) (dt : DateTime) : Prop :=
  ∃ (Y MO DD HH MI SE : List Char) (frac : Option (List Char)) (hz : Bool)
    (off nl : List Char),
    digitBlock Y 4 ∧ digitBlock MO 2 ∧ digitBlock DD 2 ∧ digitBlock HH 2 ∧
    digitBlock MI 2 ∧ digitBlock SE 2 ∧ fracOK frac ∧ offsetOK off ∧
    (nl = [] ∨ nl = ['\n']) ∧
    s = Y ++ '-' :: MO ++ '-' :: DD ++ 'T' :: HH ++ ':' :: MI ++ ':' :: SE
          ++ fracPart frac ++ zPart hz ++ off ++ nl ∧
    validDate (digitsVal Y) (digitsVal MO) (digitsVal DD) = true ∧
    validTime (digitsVal HH) (digitsVal MI) (digitsVal SE) = true ∧
    dt = ⟨digitsVal Y, digitsVal MO, digitsVal DD, digitsVal HH,
          digitsVal MI, digitsVal SE, msDefault frac⟩

/-! ## Concrete inputs used by the claims -/

/-- System-scope config file of the merge example. -/
def exSysCfg : Obj := [("enabled", .bool true), ("frequency", .str "weekly")]

/-- User-scope config file of the merge example. -/
def exUserCfg : Obj := [("frequency", .str "daily")]

/-- A complete enabled daily config. -/
def exCfg : Obj :=
  [("enabled", .bool true), ("frequency", .str "daily"),
   ("destination", .str "https://collect.example")]

/-- An enabled config whose frequency is not one of the three enumerated
values. -/
def exCfgBadFreq : Obj :=
  [("enabled", .bool true), ("frequency", .str "fortnightly"),
   ("destination", .str "https://collect.example")]

def exFiles : List (Option Obj) := [some exCfg]

def exPayload : Obj := [("k", .str "v")]

def exFresh : String := "u-123"

def exDest : JVal := .str "https://collect.example"

def exNow1 : DateTime := ⟨2024, 1, 2, 3, 4, 5, 0⟩

def exNow2 : DateTime := ⟨2024, 3, 2, 3, 4, 5, 0⟩

/-- The caller dict after the first run stored the fresh user id in it. -/
def exData0 : Obj := insertKey exPayload "user_id" (.str exFresh)

/-- The state record the first run persists. -/
def exRec0 : Obj := newRecord exNow1 exDest exData0

def dt2000 : DateTime := ⟨2000, 1, 1, 0, 0, 0, 0⟩

/-! ## Lemmas about object lookup and the config merge -/

theorem jlookup_append (a b : Obj) (k : String) :
    jlookup (a ++ b) k =
      match jlookup a k with
      | some v => some v
      | none => jlookup b k := by
  induction a with
  | nil => simp [jlookup]
  | cons p rest ih =>
    obtain ⟨k2, v⟩ := p
    by_cases h : k2 = k <;> simp [jlookup, h, ih]

theorem jlookup_map_update (b d : Obj) (k : String) :
    jlookup (b.map (fun p => match jlookup d p.1 with
                             | some v => (p.1, v)
                             | none => p)) k =
      match jlookup b k with
      | none => none
      | some w =>
        match jlookup d k with
        | some v => some v
        | none => some w := by
  induction b with
  | nil => simp [jlookup]
  | cons p rest ih =>
    obtain ⟨k2, w⟩ := p
    by_cases h : k2 = k
    · subst h
      cases hd : jlookup d k2 <;> simp [jlookup, hd]
    · cases hd : jlookup d k2 <;> simp [jlookup, hd, h, ih]

theorem jlookup_filter_none (b d : Obj) (k : String) :
    jlookup (d.filter (fun p => (jlookup b p.1).isNone)) k =
      if (jlookup b k).isNone then jlookup d k else none := by
  induction d with
  | nil => simp [jlookup]
  | cons p rest ih =>
    obtain ⟨k2, w⟩ := p
    by_cases h : k2 = k
    · subst h
      cases hb : (jlookup b k2).isNone <;> simp [jlookup, List.filter, hb, ih]
    · cases hb : (jlookup b k2).isNone <;> simp [jlookup, List.filter, hb, h, ih]

theorem jlookup_dict_update (b d : Obj) (k : String) :
    jlookup (dict_update b d) k =
      match jlookup d k with
      | some v => some v
      | none => jlookup b k := by
  unfold dict_update
  rw [jlookup_append, jlookup_map_update, jlookup_filter_none]
  cases hb : jlookup b k <;> cases hd : jlookup d k <;> simp [hb, hd]

theorem merged_config_cons (f : Option Obj) (rest : List (Option Obj)) :
    merged_config (f :: rest) =
      match f with
      | none => merged_config rest
      | some d => dict_update (merged_config rest) d := by
  unfold merged_config
  rw [List.reverse_cons, List.foldl_append]
  cases f <;> simp

theorem merged_config_lookup (files : List (Option Obj)) (k : String) :
    jlookup (merged_config files) k = firstFileHit files k := by
  induction files with
  | nil => simp [merged_config, firstFileHit, jlookup]
  | cons f rest ih =>
    rw [merged_config_cons]
    cases f with
    | none => simpa [firstFileHit] using ih
    | some d =>
      rw [jlookup_dict_update, ih]
      cases hd : jlookup d k <;> simp [firstFileHit, hd, Option.orElse]

theorem jlookup_map_overwrite (k : String) (v : JVal) :
    ∀ (o : Obj), (jlookup o k).isSome = true →
      jlookup (o.map (fun p => if p.1 = k then (k, v) else p)) k = some v := by
  intro o h
  induction o with
  | nil => simp [jlookup] at h
  | cons p rest ih =>
    obtain ⟨k2, w⟩ := p
    by_cases h2 : k2 = k
    · subst h2
      simp only [List.map_cons, Prod.fst, if_pos rfl]
      simp [jlookup]
    · simp only [jlookup, h2, if_neg, Option.isSome] at h
      simp only [List.map_cons]
      rw [if_neg (by simpa using h2)]
      simp [jlookup, h2, ih h]

theorem jlookup_insertKey (o : Obj) (k : String) (v : JVal) :
    jlookup (insertKey o k v) k = some v := by
  unfold insertKey
  by_cases h : (jlookup o k).isSome
  · rw [if_pos h]
    exact jlookup_map_overwrite k v o h
  · rw [if_neg h, jlookup_append]
    cases ho : jlookup o k
    · simp [jlookup]
    · rw [ho] at h; simp at h

/-! ## Claim theorems (first group) -/

/-- C1: for every application name -- in particular names matching the
documented identifier pattern -- the name check fails with AttributeError
(the compiled pattern has no matches method), so trigger and
is_configured raise AttributeError with an empty effect trace, and
configure raises (AttributeError, or AssertionError for a bad frequency)
with an empty effect trace: no file or network I/O ever happens. -/
theorem C1_all_ops_fail_before_io :
    ∀ (a : String) (files : List (Option Obj)) (state : Option Obj)
      (fresh : String) (now : DateTime) (payload : Obj) (writeOk : Bool)
      (perm : Bool) (dst : Option String) (f : String)
      (cfgc : Option Obj),
      check_appname a = .error .attributeError
      ∧ trigger a files state fresh now payload writeOk
          = (.error .attributeError, [])
      ∧ is_configured a cfgc = (.error .attributeError, [])
      ∧ (configure a perm dst f = (.error .attributeError, [])
          ∨ configure a perm dst f = (.error .assertionError, [])) := by
  intro a files state fresh now payload writeOk perm dst f cfgc
  refine ⟨rfl, rfl, rfl, ?_⟩
  by_cases h : (f = "daily" ∨ f = "weekly" ∨ f = "monthly")
  · left
    simp [configure, h, check_appname, pattern_has_matches_method]
  · right
    simp [configure, h]

/-- C2: the state record persisted by a submission stores user_id inside
the nested data object, while the next invocation reads it from the top
level of the record: re-running trigger on the very record it has just
written fails with KeyError, so the user id is not carried forward. -/
theorem C2_user_id_not_readable_back :
    (trigger_core exFiles none exFresh exNow1 exPayload true).2
        = [Eff.readCfg, Eff.readState, Eff.writeState exRec0,
           Eff.sendCall exData0 exDest]
    ∧ jlookup exData0 "user_id" = some (.str exFresh)
    ∧ jlookup exRec0 "user_id" = none
    ∧ (trigger_core exFiles (some exRec0) exFresh exNow2 exPayload true).1
        = .error (.keyError "user_id") :=
  ⟨rfl, rfl, rfl, rfl⟩

/-- C3: the send interval is 1 day for daily and 28 days for monthly, but
for weekly the source computes timedelta(weeks=7) = 49 days, not the 7
days the specification states (values in microseconds). -/
theorem C3_weekly_interval_is_49_days :
    send_interval_of (.str "daily") = some 86400000000
    ∧ send_interval_of (.str "weekly") = some (49 * 86400000000)
    ∧ send_interval_of (.str "monthly") = some (28 * 86400000000)
    ∧ send_interval_of (.str "weekly") ≠ some (7 * 86400000000) := by
  refine ⟨rfl, rfl, rfl, ?_⟩
  decide

/-- C5 counterexample: an enabled daily config with no prior state file,
called with now = 2000-01-01T00:00:00 (the sentinel itself): the first
call does not submit; it skips as too soon, because the sentinel plus one
day is still in the future.  The claim asserts Submit for every now. -/
theorem C5_counterexample_now_at_sentinel :
    trigger_core exFiles none exFresh dt2000 exPayload true
      = (.ok .tooSoon, [Eff.readCfg, Eff.readState]) :=
  rfl

/-- C6: a path traversal name is rejected by the documented pattern, and
trigger performs no I/O on it -- but the error raised is AttributeError
(from the missing matches method), not the InvalidNameError (ValueError)
the claim states. -/
theorem C6_bad_name_raises_attribute_error :
    appname_pat "../evil" = false
    ∧ check_appname "../evil" = .error .attributeError
    ∧ check_appname "../evil" ≠ .error .valueError
    ∧ trigger "../evil" exFiles none exFresh exNow1 exPayload true
        = (.error .attributeError, []) := by
  refine ⟨rfl, rfl, ?_, rfl⟩
  intro h
  have h2 : (Except.error PyErr.attributeError : Except PyErr Unit)
      = .error .valueError := h
  have h3 : PyErr.attributeError = PyErr.valueError := by injection h2
  exact absurd h3 (by decide)

/-- C7: is_configured never returns False for a missing config file, nor
True for one containing an enabled key: it raises AttributeError first
(and it passes the compiled pattern object instead of the name). -/
theorem C7_is_configured_raises :
    is_configured "myapp" none = (.error .attributeError, [])
    ∧ is_configured "myapp" (some [("enabled", .bool false)])
        = (.error .attributeError, []) :=
  ⟨rfl, rfl⟩

/-- C8: an enabled config whose frequency is an unrecognized value: the
trigger body reads the state file and then fails with UnboundLocalError
at the interval comparison -- not with a configuration error before any
state I/O. -/
theorem C8_bad_frequency_unbound_local :
    trigger_core [some exCfgBadFreq] none "u-1" exNow1 [] true
      = (.error .unboundLocalError, [Eff.readCfg, Eff.readState]) :=
  rfl

/-- C9: the effective config takes each key from the most specific config
file that defines it (the merge loop updates from system scope to user
scope, missing files silently skipped), and on the documented example --
system file enabled=true, frequency=weekly; user file frequency=daily --
yields enabled=true, frequency=daily. -/
theorem C9_merge_user_overrides_system :
    (∀ (files : List (Option Obj)) (k : String),
        jlookup (merged_config files) k = firstFileHit files k)
    ∧ jlookup (merged_config [some exUserCfg, none, some exSysCfg]) "enabled"
        = some (.bool true)
    ∧ jlookup (merged_config [some exUserCfg, none, some exSysCfg]) "frequency"
        = some (.str "daily") :=
  ⟨merged_config_lookup, rfl, rfl⟩

/-- C10 counterexample: a string carrying both the Z suffix and a numeric
offset is accepted by parse_datetime, contradicting the one-or-the-other
part of the claim. -/
theorem C10_counterexample_z_and_offset :
    parse_datetime ("2023-01-02T03:04:05Z+05:00".data)
      = some ⟨2023, 1, 2, 3, 4, 5, 0⟩ :=
  rfl

/-! ## Trace-position lemmas -/

theorem get?_map_const_readCfg :
    ∀ (files : List (Option Obj)) (i : Nat) (x : Eff),
      (files.map (fun _ => Eff.readCfg)).get? i = some x → x = Eff.readCfg := by
  intro files
  induction files with
  | nil => intro i x h; cases i <;> simp [List.get?] at h
  | cons f rest ih =>
    intro i x h
    cases i with
    | zero => simpa using h.symm
    | succ j => exact ih j x h

theorem get?_append_cases :
    ∀ (A B : List Eff) (i : Nat) (x : Eff),
      (A ++ B).get? i = some x →
      A.get? i = some x ∨ ∃ j, i = A.length + j ∧ B.get? j = some x := by
  intro A
  induction A with
  | nil =>
    intro B i x h
    right
    exact ⟨i, by simp, h⟩
  | cons a A2 ih =>
    intro B i x h
    cases i with
    | zero => left; simpa using h
    | succ j =>
      rcases ih B j x h with h1 | ⟨j2, hj, hB⟩
      · left; simpa using h1
      · right
        exact ⟨j2, by simp [hj]; omega, hB⟩

theorem get?_append_right_my :
    ∀ (A B : List Eff) (j : Nat), (A ++ B).get? (A.length + j) = B.get? j := by
  intro A
  induction A with
  | nil => intro B j; simp
  | cons a A2 ih =>
    intro B j
    have : A2.length + 1 + j = (A2.length + j) + 1 := by omega
    simp only [List.cons_append, List.length_cons, this, List.get?]
    exact ih B j

theorem singleton_readState_get? :
    ∀ (j : Nat) (x : Eff), [Eff.readState].get? j = some x → x = Eff.readState := by
  intro j x h
  cases j with
  | zero => simpa using h.symm
  | succ j2 => simp [List.get?] at h

/-- C4: any transport attempt in the trace of the trigger body is
immediately preceded by the write of the new state record carrying the
same payload and destination; with a failing state-file write no
transport call ever appears, and whenever the healthy-write run would
send, the failing-write run stops with the propagated IOError. -/
theorem C4_persist_strictly_before_send :
    ∀ (files : List (Option Obj)) (state : Option Obj) (fresh : String)
      (now : DateTime) (payload : Obj),
      (∀ (writeOk : Bool) (i : Nat) (p : Obj) (d2 : JVal),
          (trigger_core files state fresh now payload writeOk).2.get? i
              = some (Eff.sendCall p d2) →
          ∃ j, i = j + 1 ∧
            (trigger_core files state fresh now payload writeOk).2.get? j
                = some (Eff.writeState (newRecord now d2 p)))
      ∧ (∀ (i : Nat) (p : Obj) (d2 : JVal),
          (trigger_core files state fresh now payload false).2.get? i
              ≠ some (Eff.sendCall p d2))
      ∧ ((∃ (i : Nat) (p : Obj) (d2 : JVal),
            (trigger_core files state fresh now payload true).2.get? i
                = some (Eff.sendCall p d2)) →
          (trigger_core files state fresh now payload false).1
              = .error .ioError) := by
  intro files state fresh now payload
  have hskip : ∀ (i : Nat) (p : Obj) (d2 : JVal),
      (files.map (fun _ => Eff.readCfg) ++ [Eff.readState]).get? i
          ≠ some (Eff.sendCall p d2) := by
    intro i p d2 h
    rcases get?_append_cases _ _ _ _ h with h1 | ⟨j, _, hB⟩
    · exact absurd (get?_map_const_readCfg _ _ _ h1) (by intro hx; cases hx)
    · exact absurd (singleton_readState_get? _ _ hB) (by intro hx; cases hx)
  have hcfg : ∀ (i : Nat) (p : Obj) (d2 : JVal),
      (files.map (fun _ => Eff.readCfg)).get? i ≠ some (Eff.sendCall p d2) := by
    intro i p d2 h
    exact absurd (get?_map_const_readCfg _ _ _ h) (by intro hx; cases hx)
  cases hg : gate files state fresh now payload with
  | notEnabled =>
    refine ⟨?_, ?_, ?_⟩ <;> simp only [trigger_core, hg]
    · intro writeOk i p d2 h; exact absurd h (hcfg i p d2)
    · intro i p d2 h; exact absurd h (hcfg i p d2)
    · rintro ⟨i, p, d2, h⟩; exact absurd h (hcfg i p d2)
  | noDest =>
    refine ⟨?_, ?_, ?_⟩ <;> simp only [trigger_core, hg]
    · intro writeOk i p d2 h; exact absurd h (hcfg i p d2)
    · intro i p d2 h; exact absurd h (hcfg i p d2)
    · rintro ⟨i, p, d2, h⟩; exact absurd h (hcfg i p d2)
  | stateErr e =>
    refine ⟨?_, ?_, ?_⟩ <;> simp only [trigger_core, hg]
    · intro writeOk i p d2 h; exact absurd h (hskip i p d2)
    · intro i p d2 h; exact absurd h (hskip i p d2)
    · rintro ⟨i, p, d2, h⟩; exact absurd h (hskip i p d2)
  | noInterval =>
    refine ⟨?_, ?_, ?_⟩ <;> simp only [trigger_core, hg]
    · intro writeOk i p d2 h; exact absurd h (hskip i p d2)
    · intro i p d2 h; exact absurd h (hskip i p d2)
    · rintro ⟨i, p, d2, h⟩; exact absurd h (hskip i p d2)
  | tooSoon =>
    refine ⟨?_, ?_, ?_⟩ <;> simp only [trigger_core, hg]
    · intro writeOk i p d2 h; exact absurd h (hskip i p d2)
    · intro i p d2 h; exact absurd h (hskip i p d2)
    · rintro ⟨i, p, d2, h⟩; exact absurd h (hskip i p d2)
  | submit dest dataF =>
    have htrT : (trigger_core files state fresh now payload true).2
        = files.map (fun _ => Eff.readCfg)
          ++ [Eff.readState, Eff.writeState (newRecord now dest dataF),
              Eff.sendCall dataF dest] := by
      simp [trigger_core, hg]
    have htrF : (trigger_core files state fresh now payload false).2
        = files.map (fun _ => Eff.readCfg) ++ [Eff.readState] := by
      simp [trigger_core, hg]
    have hresF : (trigger_core files state fresh now payload false).1
        = .error .ioError := by
      simp [trigger_core, hg]
    refine ⟨?_, ?_, ?_⟩
    · intro writeOk i p d2 h
      cases writeOk with
      | false =>
        rw [htrF] at h
        exact absurd h (hskip i p d2)
      | true =>
        rw [htrT] at h ⊢
        rcases get?_append_cases _ _ _ _ h with h1 | ⟨j, hj, hB⟩
        · exact absurd (get?_map_const_readCfg _ _ _ h1) (by intro hx; cases hx)
        · rcases j with _ | (_ | (_ | j2))
          · simp [List.get?] at hB
          · simp [List.get?] at hB
          · simp only [List.get?] at hB
            have hB2 : Eff.sendCall dataF dest = Eff.sendCall p d2 := by
              injection hB
            injection hB2 with e1 e2
            subst e1
            subst e2
            refine ⟨(files.map (fun _ => Eff.readCfg)).length + 1, by omega, ?_⟩
            have h9 := get?_append_right_my (files.map (fun _ => Eff.readCfg))
              [Eff.readState, Eff.writeState (newRecord now dest dataF),
               Eff.sendCall dataF dest] 1
            simpa using h9
          · simp [List.get?] at hB
    · intro i p d2 h
      rw [htrF] at h
      exact absurd h (hskip i p d2)
    · intro _
      exact hresF

/-- C5 (amended): for an effective config that is enabled, has a
recognized frequency and a destination, and no prior state file, every
call whose now is at least one send interval past the sentinel
2000-01-01 (in particular any actual clock reading) passes the gate:
the fresh user id is stored into the payload, the new record is written,
and the transport call is attempted. -/
theorem C5_first_call_submits (files : List (Option Obj)) (payload : Obj)
    (fresh : String) (now : DateTime) (iv : Nat) (dst : JVal)
    (hEn : truthy ((jlookup (merged_config files) "enabled").getD (.bool false))
        = true)
    (hIv : send_interval_of
        ((jlookup (merged_config files) "frequency").getD (.str "weekly"))
        = some iv)
    (hDst : jlookup (merged_config files) "destination" = some dst)
    (hNow : sentinelMicros + iv ≤ timelineMicros now) :
    trigger_core files none fresh now payload true
      = (.error .typeError,
          files.map (fun _ => Eff.readCfg)
            ++ [Eff.readState,
                Eff.writeState (newRecord now dst
                  (insertKey payload "user_id" (.str fresh))),
                Eff.sendCall (insertKey payload "user_id" (.str fresh)) dst])
    ∧ jlookup (insertKey payload "user_id" (.str fresh)) "user_id"
        = some (.str fresh) := by
  have hg : gate files none fresh now payload
      = .submit dst (insertKey payload "user_id" (.str fresh)) := by
    simp only [gate, resolve_last, hEn, hDst, hIv, eq_self_iff_true, if_true]
    rw [if_neg (by omega)]
  constructor
  · simp only [trigger_core, hg, if_pos]
  · exact jlookup_insertKey payload "user_id" (.str fresh)

/-- Witness for C5: a concrete enabled daily config, no state file, now =
2026-10-12. -/
theorem C5_first_call_submits_witness :
    trigger_core exFiles none exFresh ⟨2026, 10, 12, 0, 0, 0, 0⟩ exPayload true
      = (.error .typeError,
          [Eff.readCfg, Eff.readState,
           Eff.writeState (newRecord ⟨2026, 10, 12, 0, 0, 0, 0⟩ exDest exData0),
           Eff.sendCall exData0 exDest])
    ∧ jlookup exData0 "user_id" = some (.str exFresh) := by
  have h := C5_first_call_submits exFiles exPayload exFresh
    ⟨2026, 10, 12, 0, 0, 0, 0⟩ 86400000000 exDest rfl rfl rfl (by decide)
  exact h

/-- Witness for C4: with the concrete submit-path inputs, the failing
write run stops with IOError, and in the healthy run the send at index 3
is preceded at index 2 by the write of the new record. -/
theorem C4_persist_strictly_before_send_witness :
    (trigger_core exFiles none exFresh exNow1 exPayload false).1
        = .error .ioError
    ∧ (trigger_core exFiles none exFresh exNow1 exPayload true).2.get? 2
        = some (Eff.writeState (newRecord exNow1 exDest exData0)) := by
  constructor
  · exact (C4_persist_strictly_before_send exFiles none exFresh exNow1
      exPayload).2.2 ⟨3, exData0, exDest, rfl⟩
  · obtain ⟨j, hj, hw⟩ := (C4_persist_strictly_before_send exFiles none exFresh
      exNow1 exPayload).1 true 3 exData0 exDest rfl
    have hj2 : j = 2 := by omega
    rw [hj2] at hw
    exact hw

/-! ## Inversion lemmas for the timestamp recognizer -/

theorem takeDigits_eq_some (n : Nat) :
    ∀ (s ds r : List Char),
      takeDigits n s = some (ds, r) ↔
        (ds.length = n ∧ (∀ c ∈ ds, isDig c = true) ∧ s = ds ++ r) := by
  induction n with
  | zero =>
    intro s ds r
    constructor
    · intro h
      simp only [takeDigits, Option.some.injEq, Prod.mk.injEq] at h
      obtain ⟨h1, h2⟩ := h
      subst h1
      subst h2
      simp
    · rintro ⟨h1, _, h3⟩
      have hds : ds = [] := List.length_eq_zero.mp h1
      subst hds
      simp only [List.nil_append] at h3
      subst h3
      rfl
  | succ n ih =>
    intro s ds r
    cases s with
    | nil =>
      simp only [takeDigits]
      constructor
      · intro h; cases h
      · rintro ⟨h1, _, h3⟩
        have : ds = [] ∧ r = [] := by
          constructor
          · cases ds with
            | nil => rfl
            | cons d t => cases h3
          · cases ds with
            | nil => simpa using h3.symm
            | cons d t => cases h3
        obtain ⟨hds, _⟩ := this
        subst hds
        simp at h1
    | cons c t =>
      by_cases hd : isDig c = true
      · simp only [takeDigits, hd, if_true, Option.map_eq_some']
        constructor
        · rintro ⟨⟨ds2, r2⟩, hp, hq⟩
          simp only [Prod.mk.injEq] at hq
          obtain ⟨hq1, hq2⟩ := hq
          subst hq1
          rw [hq2] at hp
          obtain ⟨h1, h2, h3⟩ := (ih t ds2 r).mp hp
          refine ⟨by simp [h1], ?_, by simp [h3]⟩
          intro x hx
          rcases List.mem_cons.mp hx with hx | hx
          · subst hx; exact hd
          · exact h2 x hx
        · rintro ⟨h1, h2, h3⟩
          cases ds with
          | nil => simp at h1
          | cons d t2 =>
            have hdc : d = c := by
              have := h3
              simp only [List.cons_append, List.cons.injEq] at this
              exact this.1.symm
            subst hdc
            have ht : t = t2 ++ r := by
              simp only [List.cons_append, List.cons.injEq] at h3
              exact h3.2
            refine ⟨(t2, r), ?_, rfl⟩
            refine (ih t t2 r).mpr ⟨by simpa using h1, ?_, ht⟩
            intro x hx
            exact h2 x (List.mem_cons_of_mem _ hx)
      · simp only [takeDigits, hd, if_false]
        constructor
        · intro h; cases h
        · rintro ⟨h1, h2, h3⟩
          cases ds with
          | nil => simp at h1
          | cons d t2 =>
            have hdc : d = c := by
              simp only [List.cons_append, List.cons.injEq] at h3
              exact h3.1.symm
            subst hdc
            exact absurd (h2 d (List.mem_cons_self d t2)) hd

theorem expectChar_eq_some (c : Char) (s r : List Char) :
    expectChar c s = some r ↔ s = c :: r := by
  cases s with
  | nil =>
    simp only [expectChar]
    constructor
    · intro h; cases h
    · intro h; cases h
  | cons x t =>
    by_cases hx : x = c
    · subst hx
      simp [expectChar]
    · simp [expectChar, hx]

theorem parseBase_eq_some (s : List Char) (v : Nat × Nat × Nat × Nat × Nat × Nat)
    (r : List Char) :
    parseBase s = some (v, r) ↔
      ∃ (Y MO DD HH MI SE : List Char),
        digitBlock Y 4 ∧ digitBlock MO 2 ∧ digitBlock DD 2 ∧ digitBlock HH 2 ∧
        digitBlock MI 2 ∧ digitBlock SE 2 ∧
        s = Y ++ '-' :: MO ++ '-' :: DD ++ 'T' :: HH ++ ':' :: MI ++ ':' :: SE ++ r ∧
        v = (digitsVal Y, digitsVal MO, digitsVal DD,
             digitsVal HH, digitsVal MI, digitsVal SE) := by
  constructor
  · intro h
    unfold parseBase at h
    cases h1 : takeDigits 4 s with
    | none => rw [h1] at h; cases h
    | some p1 =>
    obtain ⟨Y, s1⟩ := p1
    rw [h1] at h
    simp only at h
    cases h2 : expectChar '-' s1 with
    | none => rw [h2] at h; cases h
    | some s2 =>
    rw [h2] at h
    simp only at h
    cases h3 : takeDigits 2 s2 with
    | none => rw [h3] at h; cases h
    | some p3 =>
    obtain ⟨MO, s3⟩ := p3
    rw [h3] at h
    simp only at h
    cases h4 : expectChar '-' s3 with
    | none => rw [h4] at h; cases h
    | some s4 =>
    rw [h4] at h
    simp only at h
    cases h5 : takeDigits 2 s4 with
    | none => rw [h5] at h; cases h
    | some p5 =>
    obtain ⟨DD, s5⟩ := p5
    rw [h5] at h
    simp only at h
    cases h6 : expectChar 'T' s5 with
    | none => rw [h6] at h; cases h
    | some s6 =>
    rw [h6] at h
    simp only at h
    cases h7 : takeDigits 2 s6 with
    | none => rw [h7] at h; cases h
    | some p7 =>
    obtain ⟨HH, s7⟩ := p7
    rw [h7] at h
    simp only at h
    cases h8 : expectChar ':' s7 with
    | none => rw [h8] at h; cases h
    | some s8 =>
    rw [h8] at h
    simp only at h
    cases h9 : takeDigits 2 s8 with
    | none => rw [h9] at h; cases h
    | some p9 =>
    obtain ⟨MI, s9⟩ := p9
    rw [h9] at h
    simp only at h
    cases h10 : expectChar ':' s9 with
    | none => rw [h10] at h; cases h
    | some s10 =>
    rw [h10] at h
    simp only at h
    cases h11 : takeDigits 2 s10 with
    | none => rw [h11] at h; cases h
    | some p11 =>
    obtain ⟨SE, s11⟩ := p11
    rw [h11] at h
    simp only [Option.some.injEq, Prod.mk.injEq] at h
    obtain ⟨hv, hr⟩ := h
    obtain ⟨lY, dY, eY⟩ := (takeDigits_eq_some 4 s Y s1).mp h1
    have e1 := (expectChar_eq_some '-' s1 s2).mp h2
    obtain ⟨lMO, dMO, eMO⟩ := (takeDigits_eq_some 2 s2 MO s3).mp h3
    have e2 := (expectChar_eq_some '-' s3 s4).mp h4
    obtain ⟨lDD, dDD, eDD⟩ := (takeDigits_eq_some 2 s4 DD s5).mp h5
    have e3 := (expectChar_eq_some 'T' s5 s6).mp h6
    obtain ⟨lHH, dHH, eHH⟩ := (takeDigits_eq_some 2 s6 HH s7).mp h7
    have e4 := (expectChar_eq_some ':' s7 s8).mp h8
    obtain ⟨lMI, dMI, eMI⟩ := (takeDigits_eq_some 2 s8 MI s9).mp h9
    have e5 := (expectChar_eq_some ':' s9 s10).mp h10
    obtain ⟨lSE, dSE, eSE⟩ := (takeDigits_eq_some 2 s10 SE s11).mp h11
    subst hr
    refine ⟨Y, MO, DD, HH, MI, SE, ⟨lY, dY⟩, ⟨lMO, dMO⟩, ⟨lDD, dDD⟩,
      ⟨lHH, dHH⟩, ⟨lMI, dMI⟩, ⟨lSE, dSE⟩, ?_, hv.symm⟩
    rw [eY, e1, eMO, e2, eDD, e3, eHH, e4, eMI, e5, eSE]
    simp [List.append_assoc]
  · rintro ⟨Y, MO, DD, HH, MI, SE, bY, bMO, bDD, bHH, bMI, bSE, hs, hv⟩
    subst hv
    have hs2 : s = Y ++ ('-' :: (MO ++ ('-' :: (DD ++ ('T' ::
        (HH ++ (':' :: (MI ++ (':' :: (SE ++ r)))))))))) := by
      rw [hs]
      simp [List.append_assoc]
    rw [hs2]
    set R6 := SE ++ r with hR6
    set R5 := ':' :: R6 with hR5
    set R4 := MI ++ R5 with hR4
    set R3 := ':' :: R4 with hR3
    set R2 := HH ++ R3 with hR2
    set R1 := 'T' :: R2 with hR1
    set Q4 := DD ++ R1 with hQ4
    set Q3 := '-' :: Q4 with hQ3
    set Q2 := MO ++ Q3 with hQ2
    set Q1 := '-' :: Q2 with hQ1
    have t1 : takeDigits 4 (Y ++ Q1) = some (Y, Q1) :=
      (takeDigits_eq_some _ _ _ _).mpr ⟨bY.1, bY.2, rfl⟩
    have t2 : expectChar '-' Q1 = some Q2 := (expectChar_eq_some _ _ _).mpr hQ1
    have t3 : takeDigits 2 Q2 = some (MO, Q3) :=
      (takeDigits_eq_some _ _ _ _).mpr ⟨bMO.1, bMO.2, hQ2⟩
    have t4 : expectChar '-' Q3 = some Q4 := (expectChar_eq_some _ _ _).mpr hQ3
    have t5 : takeDigits 2 Q4 = some (DD, R1) :=
      (takeDigits_eq_some _ _ _ _).mpr ⟨bDD.1, bDD.2, hQ4⟩
    have t6 : expectChar 'T' R1 = some R2 := (expectChar_eq_some _ _ _).mpr hR1
    have t7 : takeDigits 2 R2 = some (HH, R3) :=
      (takeDigits_eq_some _ _ _ _).mpr ⟨bHH.1, bHH.2, hR2⟩
    have t8 : expectChar ':' R3 = some R4 := (expectChar_eq_some _ _ _).mpr hR3
    have t9 : takeDigits 2 R4 = some (MI, R5) :=
      (takeDigits_eq_some _ _ _ _).mpr ⟨bMI.1, bMI.2, hR4⟩
    have t10 : expectChar ':' R5 = some R6 := (expectChar_eq_some _ _ _).mpr hR5
    have t11 : takeDigits 2 R6 = some (SE, r) :=
      (takeDigits_eq_some _ _ _ _).mpr ⟨bSE.1, bSE.2, hR6⟩
    simp only [parseBase, t1, t2, t3, t4, t5, t6, t7, t8, t9, t10, t11]

theorem takeWhile_exact {p : Char → Bool} :
    ∀ (ds r : List Char), (∀ c ∈ ds, p c = true) →
      (∀ c, r.head? = some c → p c = false) →
      (ds ++ r).takeWhile p = ds ∧ (ds ++ r).dropWhile p = r := by
  intro ds
  induction ds with
  | nil =>
    intro r _ hr
    cases r with
    | nil => simp
    | cons c t =>
      have hc := hr c rfl
      simp [List.takeWhile_cons, List.dropWhile_cons, hc]
  | cons d ds2 ih =>
    intro r hds hr
    have hd : p d = true := hds d (List.mem_cons_self d ds2)
    have h2 := ih r (fun c hc => hds c (List.mem_cons_of_mem _ hc)) hr
    simp [List.takeWhile_cons, List.dropWhile_cons, hd, h2.1, h2.2]

theorem dropWhile_head_not (p : Char → Bool) :
    ∀ (t : List Char) (c : Char), (t.dropWhile p).head? = some c → p c = false := by
  intro t
  induction t with
  | nil => intro c h; simp [List.dropWhile] at h
  | cons a t2 ih =>
    intro c h
    by_cases ha : p a = true
    · rw [List.dropWhile_cons, if_pos ha] at h
      exact ih c h
    · rw [List.dropWhile_cons, if_neg ha] at h
      simp only [List.head?, Option.some.injEq] at h
      subst h
      simpa using ha

theorem parseFrac_dot (t : List Char) :
    parseFrac ('.' :: t) =
      if 1 ≤ (t.takeWhile isDig).length ∧ (t.takeWhile isDig).length ≤ 6
      then some (msOf (t.takeWhile isDig), t.dropWhile isDig) else none := by
  simp [parseFrac]

theorem parseFrac_nodot (c : Char) (t : List Char) (hc : ¬ c = '.') :
    parseFrac (c :: t) = some (0, c :: t) := by
  simp [parseFrac, hc]

theorem parseFrac_eq_some (s : List Char) (u : Nat) (r : List Char) :
    parseFrac s = some (u, r) ↔
      ((∃ ds, 1 ≤ ds.length ∧ ds.length ≤ 6 ∧ (∀ c ∈ ds, isDig c = true) ∧
          s = '.' :: (ds ++ r) ∧ u = msOf ds ∧
          (∀ c, r.head? = some c → isDig c = false))
        ∨ (s.head? ≠ some '.' ∧ u = 0 ∧ r = s)) := by
  cases s with
  | nil =>
    constructor
    · intro h
      have h2 : (some ((0 : Nat), ([] : List Char)) : Option (Nat × List Char))
          = some (u, r) := h
      have hu : u = 0 := by
        have := congrArg (fun o => (o.getD (0, [])).1) h2
        simpa using this.symm
      have hr : r = [] := by
        have := congrArg (fun o => (o.getD (0, [])).2) h2
        simpa using this.symm
      exact Or.inr ⟨by simp, hu, hr⟩
    · rintro (⟨ds, _, _, _, hds, _⟩ | ⟨_, hu, hr⟩)
      · cases hds
      · subst hu
        subst hr
        rfl
  | cons c t =>
    by_cases hc : c = '.'
    · subst hc
      rw [parseFrac_dot]
      by_cases hlen : 1 ≤ (t.takeWhile isDig).length ∧ (t.takeWhile isDig).length ≤ 6
      · rw [if_pos hlen]
        constructor
        · intro h
          have hu : u = msOf (t.takeWhile isDig) := by
            have := congrArg (fun o => ((o.getD (0, [])).1 : Nat)) h
            simpa using this.symm
          have hr : r = t.dropWhile isDig := by
            have := congrArg (fun o => (o.getD (0, [])).2) h
            simpa using this.symm
          refine Or.inl ⟨t.takeWhile isDig, hlen.1, hlen.2,
            fun c hx => List.mem_takeWhile_imp hx, ?_, hu, ?_⟩
          · rw [hr, List.takeWhile_append_dropWhile]
          · intro c hx
            rw [hr] at hx
            exact dropWhile_head_not isDig t c hx
        · rintro (⟨ds, hl1, hl2, hdig, hds, hu, hmax⟩ | ⟨hhd, _, _⟩)
          · have hds2 : t = ds ++ r := by injection hds
            subst hds2
            obtain ⟨htw, hdw⟩ := takeWhile_exact ds r hdig hmax
            rw [htw, hdw, hu]
          · exact (hhd rfl).elim
      · rw [if_neg hlen]
        constructor
        · intro h; cases h
        · rintro (⟨ds, hl1, hl2, hdig, hds, hu, hmax⟩ | ⟨hhd, _, _⟩)
          · have hds2 : t = ds ++ r := by injection hds
            subst hds2
            obtain ⟨htw, _⟩ := takeWhile_exact ds r hdig hmax
            rw [htw] at hlen
            exact (hlen ⟨hl1, hl2⟩).elim
          · exact (hhd rfl).elim
    · rw [parseFrac_nodot c t hc]
      constructor
      · intro h
        have hu : u = 0 := by
          have := congrArg (fun o => ((o.getD (0, [])).1 : Nat)) h
          simpa using this.symm
        have hr : r = c :: t := by
          have := congrArg (fun o => (o.getD (0, [])).2) h
          simpa using this.symm
        refine Or.inr ⟨?_, hu, hr⟩
        intro hh
        have : c = '.' := by injection hh
        exact hc this
      · rintro (⟨ds, _, _, _, hds, _⟩ | ⟨_, hu, hr⟩)
        · have hcd : c = '.' := by injection hds
          exact (hc hcd).elim
        · subst hu
          subst hr
          rfl

theorem parseZ_spec (s : List Char) (b : Bool) (r : List Char) :
    parseZ s = (b, r) ↔
      ((b = true ∧ s = 'Z' :: r) ∨ (b = false ∧ r = s ∧ s.head? ≠ some 'Z')) := by
  cases s with
  | nil =>
    constructor
    · intro h
      have h2 : ((false, []) : Bool × List Char) = (b, r) := h
      have hb : b = false := (congrArg Prod.fst h2).symm
      have hr : r = [] := (congrArg Prod.snd h2).symm
      exact Or.inr ⟨hb, hr, by simp⟩
    · rintro (⟨_, hs⟩ | ⟨hb, hr, _⟩)
      · cases hs
      · subst hb
        subst hr
        rfl
  | cons c t =>
    by_cases hc : c = 'Z'
    · subst hc
      constructor
      · intro h
        have h2 : ((true, t) : Bool × List Char) = (b, r) := by
          simpa [parseZ] using h
        have hb : b = true := (congrArg Prod.fst h2).symm
        have hr : t = r := congrArg Prod.snd h2
        exact Or.inl ⟨hb, by rw [hr]⟩
      · rintro (⟨hb, hs⟩ | ⟨_, _, hhd⟩)
        · subst hb
          have ht : t = r := by injection hs
          simp [parseZ, ht]
        · exact (hhd rfl).elim
    · constructor
      · intro h
        have h2 : ((false, c :: t) : Bool × List Char) = (b, r) := by
          simpa [parseZ, hc] using h
        have hb : b = false := (congrArg Prod.fst h2).symm
        have hr : r = c :: t := (congrArg Prod.snd h2).symm
        refine Or.inr ⟨hb, hr, ?_⟩
        intro hh
        have : c = 'Z' := by injection hh
        exact hc this
      · rintro (⟨_, hs⟩ | ⟨hb, hr, _⟩)
        · have hcz : c = 'Z' := by injection hs
          exact (hc hcz).elim
        · subst hb
          subst hr
          simp [parseZ, hc]

theorem block2_head_not_colon (mm : List Char) (b : digitBlock mm 2)
    (r : List Char) : (mm ++ r).head? ≠ some ':' := by
  cases mm with
  | nil => exact absurd b.1 (by simp)
  | cons m mt =>
    intro h
    have hm : m = ':' := by simpa using h
    have hd : isDig m = true := b.2 m (List.mem_cons_self _ _)
    subst hm
    exact absurd hd (by decide)

theorem parseOffset_eq_some (s r : List Char) :
    parseOffset s = some r ↔
      ((s.head? ≠ some '+' ∧ s.head? ≠ some '-') ∧ r = s)
      ∨ (∃ c hh mm, (c = '+' ∨ c = '-') ∧ digitBlock hh 2 ∧ digitBlock mm 2 ∧
          (s = c :: (hh ++ (mm ++ r)) ∨ s = c :: (hh ++ (':' :: (mm ++ r))))) := by
  cases s with
  | nil =>
    constructor
    · intro h
      have hr : [] = r := Option.some.inj h
      exact Or.inl ⟨⟨by simp, by simp⟩, hr.symm⟩
    · rintro (⟨_, hr⟩ | ⟨c, hh, mm, _, _, _, (hs | hs)⟩)
      · subst hr; rfl
      · cases hs
      · cases hs
  | cons c t =>
    by_cases hc : (c = '+' ∨ c = '-')
    · cases h1 : takeDigits 2 t with
      | none =>
        have hval : parseOffset (c :: t) = none := by
          simp [parseOffset, hc, h1]
        rw [hval]
        constructor
        · intro h; cases h
        · rintro (⟨⟨hp, hm⟩, _⟩ | ⟨c2, hh, mm, hsign, bhh, bmm, hshape⟩)
          · rcases hc with hc | hc
            · subst hc; exact (hp rfl).elim
            · subst hc; exact (hm rfl).elim
          · rcases hshape with hs | hs
            · have hct : t = hh ++ (mm ++ r) := by injection hs
              have ht1 : takeDigits 2 t = some (hh, mm ++ r) :=
                (takeDigits_eq_some _ _ _ _).mpr ⟨bhh.1, bhh.2, hct⟩
              rw [h1] at ht1
              cases ht1
            · have hct : t = hh ++ (':' :: (mm ++ r)) := by injection hs
              have ht1 : takeDigits 2 t = some (hh, ':' :: (mm ++ r)) :=
                (takeDigits_eq_some _ _ _ _).mpr ⟨bhh.1, bhh.2, hct⟩
              rw [h1] at ht1
              cases ht1
      | some p1 =>
        obtain ⟨hh1, s1⟩ := p1
        cases h2 : takeDigits 2 (if s1.head? = some ':' then s1.tail else s1) with
        | none =>
          have hval : parseOffset (c :: t) = none := by
            simp only [parseOffset, hc, if_pos, h1, h2]
          rw [hval]
          constructor
          · intro h; cases h
          · rintro (⟨⟨hp, hm⟩, _⟩ | ⟨c2, hh, mm, hsign, bhh, bmm, hshape⟩)
            · rcases hc with hc | hc
              · subst hc; exact (hp rfl).elim
              · subst hc; exact (hm rfl).elim
            · rcases hshape with hs | hs
              · have hct : t = hh ++ (mm ++ r) := by injection hs
                have ht1 : takeDigits 2 t = some (hh, mm ++ r) :=
                  (takeDigits_eq_some _ _ _ _).mpr ⟨bhh.1, bhh.2, hct⟩
                have hp2 := Option.some.inj (h1.symm.trans ht1)
                have es1 : s1 = mm ++ r := congrArg Prod.snd hp2
                have hcol : s1.head? ≠ some ':' := by
                  rw [es1]
                  exact block2_head_not_colon mm bmm r
                rw [if_neg hcol, es1] at h2
                have ht2 : takeDigits 2 (mm ++ r) = some (mm, r) :=
                  (takeDigits_eq_some _ _ _ _).mpr ⟨bmm.1, bmm.2, rfl⟩
                rw [ht2] at h2
                cases h2
              · have hct : t = hh ++ (':' :: (mm ++ r)) := by injection hs
                have ht1 : takeDigits 2 t = some (hh, ':' :: (mm ++ r)) :=
                  (takeDigits_eq_some _ _ _ _).mpr ⟨bhh.1, bhh.2, hct⟩
                have hp2 := Option.some.inj (h1.symm.trans ht1)
                have es1 : s1 = ':' :: (mm ++ r) := congrArg Prod.snd hp2
                have hcol : s1.head? = some ':' := by rw [es1]; rfl
                rw [if_pos hcol, es1] at h2
                have htl : (':' :: (mm ++ r)).tail = mm ++ r := rfl
                rw [htl] at h2
                have ht2 : takeDigits 2 (mm ++ r) = some (mm, r) :=
                  (takeDigits_eq_some _ _ _ _).mpr ⟨bmm.1, bmm.2, rfl⟩
                rw [ht2] at h2
                cases h2
        | some p2 =>
          obtain ⟨mm1, s3⟩ := p2
          have hval : parseOffset (c :: t) = some s3 := by
            simp only [parseOffset, hc, if_pos, h1, h2]
          rw [hval]
          constructor
          · intro h
            have hr : s3 = r := Option.some.inj h
            obtain ⟨lhh, dhh, eht⟩ := (takeDigits_eq_some 2 t hh1 s1).mp h1
            by_cases hcol : s1.head? = some ':'
            · have hs1 : s1 = ':' :: s1.tail := by
                cases s1 with
                | nil => simp at hcol
                | cons a u =>
                  have ha : a = ':' := by simpa using hcol
                  rw [ha]
                  rfl
              rw [if_pos hcol] at h2
              obtain ⟨lmm, dmm, ems⟩ := (takeDigits_eq_some 2 s1.tail mm1 s3).mp h2
              refine Or.inr ⟨c, hh1, mm1, hc, ⟨lhh, dhh⟩, ⟨lmm, dmm⟩, Or.inr ?_⟩
              rw [← hr, eht, hs1, ems]
            · rw [if_neg hcol] at h2
              obtain ⟨lmm, dmm, ems⟩ := (takeDigits_eq_some 2 s1 mm1 s3).mp h2
              refine Or.inr ⟨c, hh1, mm1, hc, ⟨lhh, dhh⟩, ⟨lmm, dmm⟩, Or.inl ?_⟩
              rw [← hr, eht, ems]
          · rintro (⟨⟨hp, hm⟩, _⟩ | ⟨c2, hh, mm, hsign, bhh, bmm, hshape⟩)
            · rcases hc with hc | hc
              · subst hc; exact (hp rfl).elim
              · subst hc; exact (hm rfl).elim
            · rcases hshape with hs | hs
              · have hct : t = hh ++ (mm ++ r) := by injection hs
                have ht1 : takeDigits 2 t = some (hh, mm ++ r) :=
                  (takeDigits_eq_some _ _ _ _).mpr ⟨bhh.1, bhh.2, hct⟩
                have hp2 := Option.some.inj (h1.symm.trans ht1)
                have es1 : s1 = mm ++ r := congrArg Prod.snd hp2
                have hcol : s1.head? ≠ some ':' := by
                  rw [es1]
                  exact block2_head_not_colon mm bmm r
                rw [if_neg hcol, es1] at h2
                have ht2 : takeDigits 2 (mm ++ r) = some (mm, r) :=
                  (takeDigits_eq_some _ _ _ _).mpr ⟨bmm.1, bmm.2, rfl⟩
                have hp3 := Option.some.inj (ht2.symm.trans h2)
                have hs3 : s3 = r := (congrArg Prod.snd hp3).symm
                rw [hs3]
              · have hct : t = hh ++ (':' :: (mm ++ r)) := by injection hs
                have ht1 : takeDigits 2 t = some (hh, ':' :: (mm ++ r)) :=
                  (takeDigits_eq_some _ _ _ _).mpr ⟨bhh.1, bhh.2, hct⟩
                have hp2 := Option.some.inj (h1.symm.trans ht1)
                have es1 : s1 = ':' :: (mm ++ r) := congrArg Prod.snd hp2
                have hcol : s1.head? = some ':' := by rw [es1]; rfl
                rw [if_pos hcol, es1] at h2
                have htl : (':' :: (mm ++ r)).tail = mm ++ r := rfl
                rw [htl] at h2
                have ht2 : takeDigits 2 (mm ++ r) = some (mm, r) :=
                  (takeDigits_eq_some _ _ _ _).mpr ⟨bmm.1, bmm.2, rfl⟩
                have hp3 := Option.some.inj (ht2.symm.trans h2)
                have hs3 : s3 = r := (congrArg Prod.snd hp3).symm
                rw [hs3]
    · have hval : parseOffset (c :: t) = some (c :: t) := by
        simp [parseOffset, hc]
      rw [hval]
      constructor
      · intro h
        have hr : c :: t = r := Option.some.inj h
        refine Or.inl ⟨⟨?_, ?_⟩, hr.symm⟩
        · intro hh2
          have : c = '+' := by injection hh2
          exact hc (Or.inl this)
        · intro hh2
          have : c = '-' := by injection hh2
          exact hc (Or.inr this)
      · rintro (⟨_, hr⟩ | ⟨c2, hh, mm, hsign, _, _, hshape⟩)
        · subst hr; rfl
        · have hc2 : c = c2 := by
            rcases hshape with hs | hs
            · injection hs
            · injection hs
          rw [hc2] at hc
          exact (hc hsign).elim

/-- C10 (amended): among ASCII inputs (the domain on which the embedded
recognizer coincides with Python, whose \\d also admits Unicode decimal
digits), parse_datetime accepts exactly the strings YYYY-MM-DDTHH:MM:SS
with in-range calendar fields, an optional fraction of 1-6 digits, an
optional trailing Z and an optional numeric UTC-offset suffix -- the Z
and the offset independently optional, so both may appear together --
optionally followed by a single trailing newline (admitted by the regex
$ anchor); the microseconds are zero when the fraction is absent. -/
theorem C10_parse_accepts_exactly :
    ∀ (s : List Char) (dt : DateTime), (∀ c ∈ s, c.toNat < 128) →
      (parse_datetime s = some dt ↔ iso_decomp s dt) := by
  intro s dt hascii
  constructor
  · intro h
    cases hb : parseBase s with
    | none =>
      simp only [parse_datetime, hb] at h
      exact Option.noConfusion h
    | some pb =>
      obtain ⟨⟨y, mo, dd, hh, mi, se⟩, r1⟩ := pb
      simp only [parse_datetime, hb] at h
      cases hf : parseFrac r1 with
      | none =>
        simp only [hf] at h
        exact Option.noConfusion h
      | some pf =>
        obtain ⟨us, r2⟩ := pf
        simp only [hf] at h
        cases hpz : parseZ r2 with
        | mk b3 r3 =>
        simp only [hpz] at h
        cases ho : parseOffset r3 with
        | none =>
          simp only [ho] at h
          exact Option.noConfusion h
        | some r4 =>
          simp only [ho] at h
          by_cases hcond : ((r4 = [] ∨ r4 = ['\n'])
              ∧ validDate y mo dd = true ∧ validTime hh mi se = true)
          · rw [if_pos hcond] at h
            have hdt : DateTime.mk y mo dd hh mi se us = dt :=
              Option.some.inj h
            obtain ⟨Y, MO, DD, HH, MI, SE, bY, bMO, bDD, bHH, bMI, bSE,
              hs1, hv⟩ := (parseBase_eq_some s _ r1).mp hb
            simp only [Prod.mk.injEq] at hv
            obtain ⟨ey, emo, edd, ehh, emi, ese⟩ := hv
            have hfracdec : ∃ frac, fracOK frac ∧ r1 = fracPart frac ++ r2
                ∧ us = msDefault frac := by
              rcases (parseFrac_eq_some r1 us r2).mp hf with
                ⟨ds, hl1, hl2, hdig, hr1, hus, _⟩ | ⟨_, hus, hr2⟩
              · exact ⟨some ds, ⟨hl1, hl2, hdig⟩, by rw [hr1]; rfl,
                  by rw [hus]; rfl⟩
              · exact ⟨none, trivial, by simp [fracPart, hr2],
                  by rw [hus]; rfl⟩
            obtain ⟨frac, hfracOK, hr1eq, husEq⟩ := hfracdec
            have hzeq : r2 = zPart b3 ++ r3 := by
              rcases (parseZ_spec r2 b3 r3).mp hpz with
                ⟨hb3, hr2z⟩ | ⟨hb3, hr3, _⟩
              · rw [hb3, hr2z]; rfl
              · rw [hb3, ← hr3]; rfl
            have hoffdec : ∃ off, offsetOK off ∧ r3 = off ++ r4 := by
              rcases (parseOffset_eq_some r3 r4).mp ho with
                ⟨_, hr4⟩ | ⟨c, hhb, mmb, hsign, bhhb, bmmb, hshape⟩
              · exact ⟨[], Or.inl rfl, by simp [hr4]⟩
              · rcases hshape with hsh | hsh
                · exact ⟨c :: ((hhb ++ []) ++ mmb),
                    Or.inr ⟨c, hhb, [], mmb, hsign, bhhb, Or.inl rfl, bmmb, rfl⟩,
                    by rw [hsh]; simp⟩
                · exact ⟨c :: ((hhb ++ [':']) ++ mmb),
                    Or.inr ⟨c, hhb, [':'], mmb, hsign, bhhb, Or.inr rfl, bmmb, rfl⟩,
                    by rw [hsh]; simp⟩
            obtain ⟨off, hoffOK, hr3eq⟩ := hoffdec
            refine ⟨Y, MO, DD, HH, MI, SE, frac, b3, off, r4,
              bY, bMO, bDD, bHH, bMI, bSE, hfracOK, hoffOK, hcond.1,
              ?_, ?_, ?_, ?_⟩
            · rw [hs1, hr1eq, hzeq, hr3eq]
              simp [List.append_assoc]
            · rw [← ey, ← emo, ← edd]; exact hcond.2.1
            · rw [← ehh, ← emi, ← ese]; exact hcond.2.2
            · rw [← hdt, ey, emo, edd, ehh, emi, ese, husEq]
          · rw [if_neg hcond] at h
            cases h
  · rintro ⟨Y, MO, DD, HH, MI, SE, frac, hz, off, nl, bY, bMO, bDD, bHH,
      bMI, bSE, hfrac, hoff, hnl, hs, hvD, hvT, hdt⟩
    subst hs
    subst hdt
    have hshape : Y ++ '-' :: MO ++ '-' :: DD ++ 'T' :: HH ++ ':' :: MI
          ++ ':' :: SE ++ fracPart frac ++ zPart hz ++ off ++ nl
        = Y ++ '-' :: MO ++ '-' :: DD ++ 'T' :: HH ++ ':' :: MI ++ ':' :: SE
          ++ (fracPart frac ++ (zPart hz ++ (off ++ nl))) := by
      simp [List.append_assoc]
    rw [hshape]
    have hb : parseBase (Y ++ '-' :: MO ++ '-' :: DD ++ 'T' :: HH ++ ':' :: MI
          ++ ':' :: SE ++ (fracPart frac ++ (zPart hz ++ (off ++ nl))))
        = some ((digitsVal Y, digitsVal MO, digitsVal DD, digitsVal HH,
                 digitsVal MI, digitsVal SE),
                fracPart frac ++ (zPart hz ++ (off ++ nl))) :=
      (parseBase_eq_some _ _ _).mpr
        ⟨Y, MO, DD, HH, MI, SE, bY, bMO, bDD, bHH, bMI, bSE, rfl, rfl⟩
    have hoffhead : ∀ c2, (off ++ nl).head? = some c2 →
        (c2 = '+' ∨ c2 = '-' ∨ c2 = '\n') := by
      intro c2 hc2
      rcases hoff with hoe | ⟨c, hhb, sep, mmb, hsign, _, _, _, hoe⟩
      · subst hoe
        simp only [List.nil_append] at hc2
        rcases hnl with hn | hn
        · subst hn
          exact Option.noConfusion hc2
        · subst hn
          have he : '\n' = c2 := by simpa using hc2
          exact Or.inr (Or.inr he.symm)
      · subst hoe
        have he : c = c2 := by simpa using hc2
        rcases hsign with hsg | hsg
        · exact Or.inl (he ▸ hsg)
        · exact Or.inr (Or.inl (he ▸ hsg))
    have hzohead : ∀ c2, (zPart hz ++ (off ++ nl)).head? = some c2 →
        (c2 = 'Z' ∨ c2 = '+' ∨ c2 = '-' ∨ c2 = '\n') := by
      intro c2 hc2
      cases hz with
      | true =>
        have he : c2 = 'Z' := by simpa [zPart] using hc2.symm
        exact Or.inl he
      | false =>
        simp only [zPart, List.nil_append] at hc2
        exact Or.inr (hoffhead c2 hc2)
    have hfr : parseFrac (fracPart frac ++ (zPart hz ++ (off ++ nl)))
        = some (msDefault frac, zPart hz ++ (off ++ nl)) := by
      cases frac with
      | none =>
        refine (parseFrac_eq_some _ _ _).mpr (Or.inr ⟨?_, rfl, rfl⟩)
        intro hc
        rcases hzohead '.' hc with h1 | h1 | h1 | h1 <;> cases h1
      | some ds =>
        refine (parseFrac_eq_some _ _ _).mpr (Or.inl ⟨ds, hfrac.1, hfrac.2.1,
          hfrac.2.2, rfl, rfl, ?_⟩)
        intro c2 hc2
        rcases hzohead c2 hc2 with h1 | h1 | h1 | h1 <;> subst h1 <;> decide
    have hpz : parseZ (zPart hz ++ (off ++ nl)) = (hz, off ++ nl) := by
      cases hz with
      | true => rfl
      | false =>
        refine (parseZ_spec _ _ _).mpr (Or.inr ⟨rfl, by simp [zPart], ?_⟩)
        intro hc
        simp only [zPart, List.nil_append] at hc
        rcases hoffhead 'Z' hc with h1 | h1 | h1 <;> cases h1
    have ho : parseOffset (off ++ nl) = some nl := by
      rcases hoff with hoe | ⟨c, hhb, sep, mmb, hsign, bhhb, hsep, bmmb, hoe⟩
      · subst hoe
        refine (parseOffset_eq_some _ _).mpr (Or.inl ⟨⟨?_, ?_⟩, by simp⟩)
        · intro hch
          simp only [List.nil_append] at hch
          rcases hnl with hn | hn
          · subst hn
            exact Option.noConfusion hch
          · subst hn
            simp at hch
        · intro hch
          simp only [List.nil_append] at hch
          rcases hnl with hn | hn
          · subst hn
            exact Option.noConfusion hch
          · subst hn
            simp at hch
      · subst hoe
        rcases hsep with hse | hse
        · subst hse
          refine (parseOffset_eq_some _ _).mpr (Or.inr
            ⟨c, hhb, mmb, hsign, bhhb, bmmb, Or.inl ?_⟩)
          simp
        · subst hse
          refine (parseOffset_eq_some _ _).mpr (Or.inr
            ⟨c, hhb, mmb, hsign, bhhb, bmmb, Or.inr ?_⟩)
          simp
    simp only [parse_datetime, hb, hfr, hpz, ho]
    rw [if_pos ⟨hnl, hvD, hvT⟩]

/-- Witness for C10: a concrete ASCII timestamp carrying a fraction, a Z
suffix and a trailing newline, characterized through the theorem. -/
theorem C10_parse_accepts_exactly_witness :
    (∀ c ∈ ("2024-01-02T03:04:05.5Z\n".data), c.toNat < 128)
    ∧ iso_decomp ("2024-01-02T03:04:05.5Z\n".data)
        ⟨2024, 1, 2, 3, 4, 5, 500000⟩ := by
  constructor
  · decide
  · exact (C10_parse_accepts_exactly ("2024-01-02T03:04:05.5Z\n".data)
      ⟨2024, 1, 2, 3, 4, 5, 500000⟩ (by decide)).mp rfl

end Etph